import Mathlib

/-!
Shallow embedding of the conversation-orchestration core of the
litmus-mcp-server repository (src/src/client_utils.py, src/src/conversation.py,
src/src/env_config.py), together with theorems settling the frozen claims
about its specification.

The provider is modelled as a finite script of `ModelTurn`s: each provider
call consumes the next scripted turn; if the script is exhausted when a
further provider call is made, that call fails (a terminal provider error).
The tool invocation service is modelled as a function that may fail
(`Except`), mirroring the fact that `session.call_tool` is an awaited call
that can raise.
-/

namespace LitmusMCP

/-- A `tool_use` content block of an Anthropic response
(fields `id`, `name`, `input` of the SDK block). Arguments are modelled as
an association list, standing in for the Python dict `dict(block.input)`. -/
structure ToolUseBlock where
  id : String
  name : String
  input : List (String × String)
deriving DecidableEq, Repr

/-- A content block of an Anthropic response. The loop in
`client_utils.py` branches on `block.type == "text"` and
`block.type == "tool_use"`; any other block type falls through both
branches, which `other` represents. -/
inductive ContentBlock where
  | text (t : String)
  | tool_use (b : ToolUseBlock)
  | other
deriving DecidableEq, Repr

/-- One provider response: the `content` block list and the `stop_reason`
string of an Anthropic message. -/
structure ModelTurn where
  content : List ContentBlock
  stop_reason : String
deriving DecidableEq, Repr

/-- One entry of `result.content` returned by `session.call_tool`:
either a text content (has a `.text` attribute) or some non-text content,
mirroring the `hasattr(rc, "text")` filter. -/
inductive ResultContent where
  | text (t : String)
  | nonText
deriving DecidableEq, Repr

/-- `result_text = "\n".join(rc.text for rc in result.content if hasattr(rc, "text"))` -/
def resultTextOf (content : List ResultContent) : String :=
  String.intercalate "\n" (content.filterMap fun
    | .text t => some t
    | .nonText => none)

/-- The tool invocation service: `session.call_tool(name, args)`.
It returns the result's content list, or fails (an awaited call that can
raise, modelled with `Except`). -/
abbrev CallToolFn := String → List (String × String) → Except String (List ResultContent)

/-- One `{"type": "tool_result", "tool_use_id": ..., "content": ...}` dict. -/
structure AnthropicToolResult where
  tool_use_id : String
  content : String
deriving DecidableEq, Repr

/-- The `content` field of a message dict in the `messages` list:
a plain string (the user query), the raw block list of an assistant
response, or a list of tool-result dicts. -/
inductive MsgContent where
  | str (s : String)
  | blocks (bs : List ContentBlock)
  | results (rs : List AnthropicToolResult)
deriving DecidableEq, Repr

/-- A `{"role": ..., "content": ...}` message dict. -/
structure PyMessage where
  role : String
  content : MsgContent
deriving DecidableEq, Repr

/-- The `text_parts` accumulated from a response's content blocks. -/
def textPartsOf (content : List ContentBlock) : List String :=
  content.filterMap fun
    | .text t => some t
    | _ => none

/-- The `tool_uses` accumulated from a response's content blocks. -/
def toolUsesOf (content : List ContentBlock) : List ToolUseBlock :=
  content.filterMap fun
    | .tool_use b => some b
    | _ => none

/-- The body of the tool-invocation `for` loop of
`process_query_anthropic` (client_utils.py lines 151-161): invoke each
requested tool in order, building one tool-result dict per call. A raised
exception aborts the whole loop (there is no `try`/`except` around
`session.call_tool`). -/
def runToolCalls (callTool : CallToolFn) : List ToolUseBlock → Except String (List AnthropicToolResult)
  | [] => .ok []
  | b :: rest =>
    match callTool b.name b.input with
    | .error e => .error e
    | .ok result =>
      let result_text := resultTextOf result
      match runToolCalls callTool rest with
      | .error e => .error e
      | .ok rs => .ok ({ tool_use_id := b.id, content := result_text } :: rs)

/-- The `while True` loop of `process_query_anthropic`
(client_utils.py lines 133-172), instrumented to also record the message
list passed to each subsequent provider call. `script` holds the provider
responses still to come; `response` is the one just received. -/
def anthropicLoop (callTool : CallToolFn) :
    List ModelTurn → ModelTurn → List PyMessage → List String →
    List (List PyMessage) × Except String String
  | [], response, messages, final_text =>
    let text_parts := textPartsOf response.content
    let tool_uses := toolUsesOf response.content
    -- `if text_parts: final_text.extend(text_parts)`
    let final_text := if text_parts.isEmpty then final_text else final_text ++ text_parts
    if response.stop_reason ≠ "tool_use" ∨ tool_uses = [] then
      -- break; then `return "\n".join(final_text)`
      ([], .ok (String.intercalate "\n" final_text))
    else
      let messages := messages ++ [⟨"assistant", .blocks response.content⟩]
      match runToolCalls callTool tool_uses with
      | .error e => ([], .error e)
      | .ok tool_results =>
        let messages := messages ++ [⟨"user", .results tool_results⟩]
        -- the next provider call is made, but the script has no response
        ([messages], .error "ProviderError")
  | next :: rest, response, messages, final_text =>
    -- the loop body is the same; the script shape only matters at the
    -- recursive provider call, split here for structural recursion
    let text_parts := textPartsOf response.content
    let tool_uses := toolUsesOf response.content
    let final_text := if text_parts.isEmpty then final_text else final_text ++ text_parts
    if response.stop_reason ≠ "tool_use" ∨ tool_uses = [] then
      ([], .ok (String.intercalate "\n" final_text))
    else
      let messages := messages ++ [⟨"assistant", .blocks response.content⟩]
      match runToolCalls callTool tool_uses with
      | .error e => ([], .error e)
      | .ok tool_results =>
        let messages := messages ++ [⟨"user", .results tool_results⟩]
        let (calls, r) := anthropicLoop callTool rest next messages final_text
        (messages :: calls, r)

/-- The result of a (non-streaming) query run: the message lists passed to
the successive provider calls, and the returned final text (or the raised
exception). -/
structure QueryRun where
  providerCalls : List (List PyMessage)
  result : Except String String
deriving Repr

/-- `MCPClient.process_query_anthropic` (client_utils.py lines 101-172)
with the provider modelled as a scripted list of turns. -/
def process_query_anthropic (callTool : CallToolFn) (query : String)
    (conversation_history : List PyMessage) (script : List ModelTurn) : QueryRun :=
  -- messages = list(conversation_history) if conversation_history else []
  let messages := conversation_history
  -- messages.append({"role": "user", "content": query})
  let messages := messages ++ [⟨"user", .str query⟩]
  match script with
  | [] => ⟨[messages], .error "ProviderError"⟩
  | response :: rest =>
    let (calls, r) := anthropicLoop callTool rest response messages []
    ⟨messages :: calls, r⟩

/-- All text parts across a scripted response sequence, in turn order. -/
def allTextParts (script : List ModelTurn) : List String :=
  (script.map fun t => textPartsOf t.content).flatten

/-! ### The streaming loops -/

/-- An observable event of a streaming run: a text chunk yielded from
`stream.text_stream`, a sentinel chunk yielded by the
`yield f"\n[Tool: {name}]\n"` line, or an actual `session.call_tool`
invocation. The first two are both plain yielded strings in the source;
the tag records which `yield` statement produced the chunk. -/
inductive StreamEv where
  | delta (s : String)
  | marker (s : String)
  | invoke (name : String) (args : List (String × String))
deriving DecidableEq, Repr

/-- The sentinel string `f"\n[Tool: {name}]\n"`. -/
def markerString (name : String) : String := "\n[Tool: " ++ name ++ "]\n"

/-- The tool phase of `process_streaming_query`
(client_utils.py lines 217-230): iterate over `final.content`, and for
each `tool_use` block yield the sentinel, invoke the tool, and record one
tool-result dict. An exception from `session.call_tool` aborts the phase
after the sentinel has already been yielded. -/
def streamToolPhase (callTool : CallToolFn) :
    List ContentBlock → List StreamEv × Except String (List AnthropicToolResult)
  | [] => ([], .ok [])
  | .tool_use b :: rest =>
    let ev0 := StreamEv.marker (markerString b.name)
    match callTool b.name b.input with
    | .error e => ([ev0, .invoke b.name b.input], .error e)
    | .ok result =>
      let result_text := resultTextOf result
      let (evs, rs) := streamToolPhase callTool rest
      (ev0 :: .invoke b.name b.input :: evs,
       rs.map ({ tool_use_id := b.id, content := result_text } :: ·))
  | _ :: rest => streamToolPhase callTool rest

/-- The `while True` loop of `process_streaming_query`
(client_utils.py lines 200-233), instrumented with the provider-call
message lists and the yielded/invoked events. Each scripted turn stands
for one drained stream: its text blocks are yielded as deltas and the
final message is the turn itself. Note the loop breaks on
`final.stop_reason != "tool_use"` alone. -/
def streamingLoop (callTool : CallToolFn) :
    List ModelTurn → ModelTurn → List PyMessage →
    List (List PyMessage) × List StreamEv × Except String Unit
  | [], final, messages =>
    let deltas := (textPartsOf final.content).map StreamEv.delta
    if final.stop_reason ≠ "tool_use" then
      ([], deltas, .ok ())
    else
      let messages := messages ++ [⟨"assistant", .blocks final.content⟩]
      let (evs, res) := streamToolPhase callTool final.content
      match res with
      | .error e => ([], deltas ++ evs, .error e)
      | .ok tool_results =>
        let messages := messages ++ [⟨"user", .results tool_results⟩]
        ([messages], deltas ++ evs, .error "ProviderError")
  | next :: rest, final, messages =>
    -- same body; the script shape only matters at the recursive call
    let deltas := (textPartsOf final.content).map StreamEv.delta
    if final.stop_reason ≠ "tool_use" then
      ([], deltas, .ok ())
    else
      let messages := messages ++ [⟨"assistant", .blocks final.content⟩]
      let (evs, res) := streamToolPhase callTool final.content
      match res with
      | .error e => ([], deltas ++ evs, .error e)
      | .ok tool_results =>
        let messages := messages ++ [⟨"user", .results tool_results⟩]
        let (calls, evs2, r) := streamingLoop callTool rest next messages
        (messages :: calls, deltas ++ evs ++ evs2, r)

/-- The result of a streaming query run. -/
structure StreamRun where
  providerCalls : List (List PyMessage)
  events : List StreamEv
  outcome : Except String Unit
deriving Repr

/-- `MCPClient.process_streaming_query` (client_utils.py lines 174-233)
with the provider modelled as a scripted list of turns. -/
def process_streaming_query (callTool : CallToolFn) (query : String)
    (conversation_history : List PyMessage) (script : List ModelTurn) : StreamRun :=
  let messages := conversation_history
  let messages := messages ++ [⟨"user", .str query⟩]
  match script with
  | [] => ⟨[messages], [], .error "ProviderError"⟩
  | final :: rest =>
    let (calls, evs, r) := streamingLoop callTool rest final messages
    ⟨messages :: calls, evs, r⟩

/-! ### The Gemini streaming loop -/

/-- A `function_call` part of a Gemini response (`name`, `args`). -/
structure FunctionCall where
  name : String
  args : List (String × String)
deriving DecidableEq, Repr

/-- A part of a Gemini `Content`. The loop branches on `if part.text:`
(Python truthiness: a non-empty text) and `elif part.function_call:`. -/
inductive GeminiPart where
  | text (t : String)
  | functionCall (fc : FunctionCall)
  | functionResponse (name : String) (result : String)
deriving DecidableEq, Repr

/-- A Gemini `types.Content`: a role string plus parts. -/
structure GeminiContent where
  role : String
  parts : List GeminiPart
deriving DecidableEq, Repr

/-- The chunk-consuming `async for` of `process_streaming_query_gemini`
(client_utils.py lines 276-293): the scripted turn is the concatenation
of `candidates[0].content.parts` over all chunks. For each part, a
non-empty text is appended to `assistant_parts` and yielded; a
`function_call` part is appended and accumulated; anything else is
skipped. Returns `(assistant_parts, function_calls, events)`. -/
def geminiScan : List GeminiPart → List GeminiPart × List FunctionCall × List StreamEv
  | [] => ([], [], [])
  | p :: rest =>
    let (aps, fcs, evs) := geminiScan rest
    match p with
    | .text t => if t ≠ "" then (p :: aps, fcs, .delta t :: evs) else (aps, fcs, evs)
    | .functionCall fc => (p :: aps, fc :: fcs, evs)
    | .functionResponse _ _ => (aps, fcs, evs)

/-- The tool phase of `process_streaming_query_gemini`
(client_utils.py lines 300-313): for each accumulated function call,
yield the sentinel, invoke the tool, and build one
`Part.from_function_response` part. -/
def geminiToolPhase (callTool : CallToolFn) :
    List FunctionCall → List StreamEv × Except String (List GeminiPart)
  | [] => ([], .ok [])
  | fc :: rest =>
    let ev0 := StreamEv.marker (markerString fc.name)
    match callTool fc.name fc.args with
    | .error e => ([ev0, .invoke fc.name fc.args], .error e)
    | .ok result =>
      let result_text := resultTextOf result
      let (evs, ps) := geminiToolPhase callTool rest
      (ev0 :: .invoke fc.name fc.args :: evs,
       ps.map (GeminiPart.functionResponse fc.name result_text :: ·))

/-- The result of a Gemini streaming run. -/
structure GeminiRun where
  providerCalls : List (List GeminiContent)
  events : List StreamEv
  outcome : Except String Unit
deriving Repr

/-- The `while True` loop of `process_streaming_query_gemini`
(client_utils.py lines 272-315). The loop breaks on
`if not function_calls:` — zero accumulated function calls. -/
def geminiLoop (callTool : CallToolFn) :
    List (List GeminiPart) → List GeminiPart → List GeminiContent →
    List (List GeminiContent) × List StreamEv × Except String Unit
  | [], parts, contents =>
    let (assistant_parts, function_calls, evs0) := geminiScan parts
    if function_calls = [] then
      ([], evs0, .ok ())
    else
      let contents := contents ++ [⟨"model", assistant_parts⟩]
      let (evs1, res) := geminiToolPhase callTool function_calls
      match res with
      | .error e => ([], evs0 ++ evs1, .error e)
      | .ok response_parts =>
        let contents := contents ++ [⟨"user", response_parts⟩]
        ([contents], evs0 ++ evs1, .error "ProviderError")
  | next :: rest, parts, contents =>
    -- same body; the script shape only matters at the recursive call
    let (assistant_parts, function_calls, evs0) := geminiScan parts
    if function_calls = [] then
      ([], evs0, .ok ())
    else
      let contents := contents ++ [⟨"model", assistant_parts⟩]
      let (evs1, res) := geminiToolPhase callTool function_calls
      match res with
      | .error e => ([], evs0 ++ evs1, .error e)
      | .ok response_parts =>
        let contents := contents ++ [⟨"user", response_parts⟩]
        let (calls, evs2, r) := geminiLoop callTool rest next contents
        (contents :: calls, evs0 ++ evs1 ++ evs2, r)

/-- An entry of the caller-supplied chat history handed to the Gemini
path: a `{"role": ..., "content": ...}` dict with a string content. -/
structure ChatMsg where
  role : String
  content : String
deriving DecidableEq, Repr

/-- `MCPClient.process_streaming_query_gemini`
(client_utils.py lines 235-315). -/
def process_streaming_query_gemini (callTool : CallToolFn) (query : String)
    (conversation_history : List ChatMsg) (script : List (List GeminiPart)) : GeminiRun :=
  let contents := conversation_history.map fun msg =>
    GeminiContent.mk (if msg.role = "assistant" then "model" else "user") [.text msg.content]
  let contents := contents ++ [⟨"user", [.text query]⟩]
  match script with
  | [] => ⟨[contents], [], .error "ProviderError"⟩
  | parts :: rest =>
    let (calls, evs, r) := geminiLoop callTool rest parts contents
    ⟨contents :: calls, evs, r⟩

/-! ### The per-session conversation store (src/src/conversation.py) -/

/-- An entry of a stored session history: a
`{"role": "user"|"assistant", "content": str}` dict. The `query` and
`response` parameters of `update_conversation_history` are typed
`str | None`, hence the `Option`. -/
structure HistEntry where
  role : String
  content : Option String
deriving DecidableEq, Repr

/-- `MAX_HISTORY_PAIRS = 5` (conversation.py line 8). -/
def MAX_HISTORY_PAIRS : Nat := 5

/-- The `_SESSIONS` dict: session-id cookie value to stored history. -/
abbrev Sessions := String → Option (List HistEntry)

/-- `update_conversation_history` (conversation.py lines 22-35):
either pop the session (clear) or append a user/assistant pair and trim
to the last `MAX_HISTORY_PAIRS * 2` entries (`history[-10:]`). -/
def update_conversation_history (sessions : Sessions) (session_id : String)
    (query response : Option String) (clear : Bool) : Sessions :=
  if clear then
    fun s => if s = session_id then none else sessions s
  else
    let history := (sessions session_id).getD []
    let history := history ++ [⟨"user", query⟩, ⟨"assistant", response⟩]
    let history :=
      if history.length > MAX_HISTORY_PAIRS * 2 then
        history.drop (history.length - MAX_HISTORY_PAIRS * 2)
      else history
    fun s => if s = session_id then some history else sessions s

/-! ### Model / API key selection (src/src/env_config.py) -/

/-- Python truthiness of an optional environment value: present and
non-empty. -/
def pyTruthy : Option String → Bool
  | none => false
  | some s => decide (s ≠ "")

def key_of_anthropic_api_key : String := "ANTHROPIC_API_KEY"
def key_of_openai_api_key : String := "OPENAI_API_KEY"
def MODEL_NAME_OPENAI : String := "openai"
def MODEL_NAME_ANTHROPIC : String := "anthropic"
def MODEL_PREFERENCE : String := "PREFERRED_MODEL"

/-- The process environment, `os.environ.get`. -/
abbrev Env := String → Option String

/-- `check_model_key` (env_config.py lines 159-178). The
`mcp_env_updater` side effect (persisting the chosen preference to the
`.env` file) is external file I/O and is not part of the returned value
modelled here. -/
def check_model_key (env : Env) : Bool × String :=
  let anthropic_exists := env key_of_anthropic_api_key
  let openai_exists := env key_of_openai_api_key
  let preferred_model := env MODEL_PREFERENCE
  if preferred_model.isSome ∧
      (preferred_model.getD "") ∈ ([ MODEL_NAME_OPENAI, MODEL_NAME_ANTHROPIC ] : List String) then
    (true, preferred_model.getD "")
  else if anthropic_exists = none ∧ openai_exists = none then
    (false, "")
  else if pyTruthy openai_exists then
    (true, MODEL_NAME_OPENAI)
  else
    (true, MODEL_NAME_ANTHROPIC)

/-! ### A small object heap, for the in-place-mutation claim

Python lists and dicts are mutable objects passed by reference. To state
that the query loops never mutate the caller-held history list (nor its
element dicts) in place, the relevant statements of
`process_query_anthropic` / `process_streaming_query` are re-embedded in
a store-passing style over an explicit heap of list and dict objects. -/

/-- A heap object: a Python list (of references to its elements) or a
message dict (held as a value; nothing in the embedded code mutates a
dict's fields). -/
inductive PyObj where
  | pylist (refs : List Nat)
  | pymsg (m : PyMessage)
deriving Repr

/-- A heap: allocated objects live at addresses below `next`. -/
structure Heap where
  objs : Nat → Option PyObj
  next : Nat

/-- Allocate a fresh object. -/
def Heap.alloc (h : Heap) (o : PyObj) : Heap × Nat :=
  (⟨fun r => if r = h.next then some o else h.objs r, h.next + 1⟩, h.next)

/-- Overwrite the object at an address. -/
def Heap.setObj (h : Heap) (r : Nat) (o : PyObj) : Heap :=
  ⟨fun s => if s = r then some o else h.objs s, h.next⟩

/-- Read a list object (defaulting to `[]` for a non-list). -/
def Heap.listAt (h : Heap) (r : Nat) : List Nat :=
  match h.objs r with
  | some (.pylist l) => l
  | _ => []

/-- Addresses below `next` hold all allocated objects. -/
def Heap.WF (h : Heap) : Prop :=
  ∀ r, h.next ≤ r → h.objs r = none

/-- `lst.append(elem)` on the heap. -/
def appendRef (h : Heap) (listRef elemRef : Nat) : Heap :=
  h.setObj listRef (.pylist (h.listAt listRef ++ [elemRef]))

/-- Allocate a fresh message dict and append it to the list at
`listRef` — the effect of `messages.append({...})`. -/
def appendMsg (h : Heap) (listRef : Nat) (m : PyMessage) : Heap :=
  let (h, eRef) := h.alloc (.pymsg m)
  appendRef h listRef eRef

/-- The `while True` loop of `process_query_anthropic`, store-passing
over the heap: the same control flow as `anthropicLoop`, with the
`messages.append(...)` statements acting on the heap object at
`messagesRef`. -/
def heapQueryLoop (callTool : CallToolFn) :
    List ModelTurn → ModelTurn → Heap → Nat → List String →
    Heap × Except String String
  | [], response, h, messagesRef, final_text =>
    let text_parts := textPartsOf response.content
    let tool_uses := toolUsesOf response.content
    let final_text := if text_parts.isEmpty then final_text else final_text ++ text_parts
    if response.stop_reason ≠ "tool_use" ∨ tool_uses = [] then
      (h, .ok (String.intercalate "\n" final_text))
    else
      let h := appendMsg h messagesRef ⟨"assistant", .blocks response.content⟩
      match runToolCalls callTool tool_uses with
      | .error e => (h, .error e)
      | .ok tool_results =>
        let h := appendMsg h messagesRef ⟨"user", .results tool_results⟩
        (h, .error "ProviderError")
  | next :: rest, response, h, messagesRef, final_text =>
    -- same body; the script shape only matters at the recursive call
    let text_parts := textPartsOf response.content
    let tool_uses := toolUsesOf response.content
    let final_text := if text_parts.isEmpty then final_text else final_text ++ text_parts
    if response.stop_reason ≠ "tool_use" ∨ tool_uses = [] then
      (h, .ok (String.intercalate "\n" final_text))
    else
      let h := appendMsg h messagesRef ⟨"assistant", .blocks response.content⟩
      match runToolCalls callTool tool_uses with
      | .error e => (h, .error e)
      | .ok tool_results =>
        let h := appendMsg h messagesRef ⟨"user", .results tool_results⟩
        heapQueryLoop callTool rest next h messagesRef final_text

/-- `process_query_anthropic` over the heap. `historyRef` is the
caller-held `conversation_history` list object;
`messages = list(conversation_history)` allocates a fresh list object
sharing the element references. -/
def heap_process_query_anthropic (callTool : CallToolFn) (query : String)
    (h : Heap) (historyRef : Nat) (script : List ModelTurn) :
    Heap × Except String String :=
  let (h, messagesRef) := h.alloc (.pylist (h.listAt historyRef))
  let h := appendMsg h messagesRef ⟨"user", .str query⟩
  match script with
  | [] => (h, .error "ProviderError")
  | response :: rest => heapQueryLoop callTool rest response h messagesRef []

/-- The `while True` loop of `process_streaming_query`, store-passing
over the heap (the yielded chunks are dropped here; only the
message-list effects matter for the mutation claim). -/
def heapStreamingLoop (callTool : CallToolFn) :
    List ModelTurn → ModelTurn → Heap → Nat → Heap × Except String Unit
  | [], final, h, messagesRef =>
    if final.stop_reason ≠ "tool_use" then
      (h, .ok ())
    else
      let h := appendMsg h messagesRef ⟨"assistant", .blocks final.content⟩
      match (streamToolPhase callTool final.content).2 with
      | .error e => (h, .error e)
      | .ok tool_results =>
        let h := appendMsg h messagesRef ⟨"user", .results tool_results⟩
        (h, .error "ProviderError")
  | next :: rest, final, h, messagesRef =>
    -- same body; the script shape only matters at the recursive call
    if final.stop_reason ≠ "tool_use" then
      (h, .ok ())
    else
      let h := appendMsg h messagesRef ⟨"assistant", .blocks final.content⟩
      match (streamToolPhase callTool final.content).2 with
      | .error e => (h, .error e)
      | .ok tool_results =>
        let h := appendMsg h messagesRef ⟨"user", .results tool_results⟩
        heapStreamingLoop callTool rest next h messagesRef

/-- `process_streaming_query` over the heap. -/
def heap_process_streaming_query (callTool : CallToolFn) (query : String)
    (h : Heap) (historyRef : Nat) (script : List ModelTurn) :
    Heap × Except String Unit :=
  let (h, messagesRef) := h.alloc (.pylist (h.listAt historyRef))
  let h := appendMsg h messagesRef ⟨"user", .str query⟩
  match script with
  | [] => (h, .error "ProviderError")
  | final :: rest => heapStreamingLoop callTool rest final h messagesRef

/-- `get_conversation_history` (conversation.py lines 17-19) over the
heap: `list(_SESSIONS.get(session_id, []))` allocates a fresh list object
copying the stored element references. `sessionRefs` maps a session id to
the address of its stored history list. -/
def get_conversation_history (h : Heap) (sessionRefs : String → Option Nat)
    (session_id : String) : Heap × Nat :=
  let stored :=
    match sessionRefs session_id with
    | some r => h.listAt r
    | none => []
  h.alloc (.pylist stored)

/-! ### Predicates used by the claim statements -/

/-- A turn on which the loops continue: stop reason `"tool_use"` and at
least one `tool_use` block. -/
def Continuing (t : ModelTurn) : Prop :=
  t.stop_reason = "tool_use" ∧ toolUsesOf t.content ≠ []

/-- A final turn as the claims describe it: a stop reason other than
`"tool_use"` and no `tool_use` blocks. -/
def Terminal (t : ModelTurn) : Prop :=
  t.stop_reason ≠ "tool_use" ∧ toolUsesOf t.content = []

/-- A provider response sequence that drives the loop to completion:
every turn before the last requests tools, and the last is terminal. -/
inductive ScriptOk : List ModelTurn → Prop
  | last {t : ModelTurn} : Terminal t → ScriptOk [t]
  | cons {t : ModelTurn} {l : List ModelTurn} :
      Continuing t → ScriptOk l → ScriptOk (t :: l)

/-- A tool service on which every invocation succeeds. -/
def CallsOk (ct : CallToolFn) : Prop :=
  ∀ n a, ∃ r, ct n a = .ok r

/-- The text-delta chunks of an event trace, in order. -/
def deltaTexts (evs : List StreamEv) : List String :=
  evs.filterMap fun
    | .delta s => some s
    | _ => none

/-- The sentinel chunks of an event trace, in order. -/
def markerTexts (evs : List StreamEv) : List String :=
  evs.filterMap fun
    | .marker s => some s
    | _ => none

/-- The names of the tools actually invoked in an event trace, in order. -/
def invokedNames (evs : List StreamEv) : List String :=
  evs.filterMap fun
    | .invoke n _ => some n
    | _ => none

/-- How one provider-call message list extends the previous one: exactly
one assistant message holding the raw turn content, then one message
whose parts are one tool result per requested call id, in request
order. -/
def StepMsgs (prev ms : List PyMessage) : Prop :=
  ∃ c rs, ms = prev ++ [⟨"assistant", .blocks c⟩, ⟨"user", .results rs⟩] ∧
    rs.map (·.tool_use_id) = (toolUsesOf c).map (·.id)

/-- `StepMsgs`, with the turn additionally containing at least one
`tool_use` block (the non-streaming loop only continues then). -/
def StepMsgsTooled (prev ms : List PyMessage) : Prop :=
  ∃ c rs, ms = prev ++ [⟨"assistant", .blocks c⟩, ⟨"user", .results rs⟩] ∧
    rs.map (·.tool_use_id) = (toolUsesOf c).map (·.id) ∧ toolUsesOf c ≠ []

/-- Each recorded provider-call message list steps from the previous one
by the given extension relation. -/
def ChainBy (P : List PyMessage → List PyMessage → Prop) :
    List PyMessage → List (List PyMessage) → Prop
  | _, [] => True
  | prev, ms :: rest => P prev ms ∧ ChainBy P ms rest

/-- Well-formed sentinel structure of an event trace: text deltas are
free-standing, and every invocation is immediately preceded by exactly
one sentinel chunk of the exact form `"\n[Tool: <name>]\n"` for its tool
name (and every sentinel is immediately followed by its invocation). -/
inductive EvsOk : List StreamEv → Prop
  | nil : EvsOk []
  | delta (s : String) {l : List StreamEv} : EvsOk l → EvsOk (.delta s :: l)
  | pair (name : String) (args : List (String × String)) {l : List StreamEv} :
      EvsOk l → EvsOk (.marker (markerString name) :: .invoke name args :: l)

/-- The function calls a Gemini turn accumulates. -/
def functionCallsOf (parts : List GeminiPart) : List FunctionCall :=
  (geminiScan parts).2.1

/-! ### Concrete fixtures used by witnesses and counterexamples -/

/-- A tool service that always succeeds with a single text content. -/
def ctOk : CallToolFn := fun _ _ => .ok [.text "ok"]

/-- A tool service that always succeeds with an empty content list. -/
def ctNil : CallToolFn := fun _ _ => .ok []

/-- A tool service on which tool `"a"` raises and every other tool
succeeds. -/
def ctFailA : CallToolFn := fun n _ =>
  if n = "a" then .error "boom" else .ok [.text "ok"]

/-- A turn requesting tools `"a"` then `"b"`. -/
def twoToolTurn : ModelTurn :=
  ⟨[.tool_use ⟨"1", "a", []⟩, .tool_use ⟨"2", "b", []⟩], "tool_use"⟩

/-- A terminal turn with one text part. -/
def doneTurn : ModelTurn := ⟨[.text "done"], "end_turn"⟩

/-- A terminal turn with two text parts. -/
def twoTextTurn : ModelTurn := ⟨[.text "A", .text "B"], "end_turn"⟩

/-- A continuing turn with one text part and one tool call. -/
def textToolTurn : ModelTurn := ⟨[.text "A", .tool_use ⟨"1", "t", []⟩], "tool_use"⟩

/-- A terminal turn with text `"B"`. -/
def doneBTurn : ModelTurn := ⟨[.text "B"], "end_turn"⟩

/-- A turn with no `tool_use` blocks but stop reason `"tool_use"`. -/
def emptyToolUseTurn : ModelTurn := ⟨[.text "hi"], "tool_use"⟩

/-- A continuing turn requesting one tool, used to build arbitrarily long
scripts. -/
def toolTurn : ModelTurn := ⟨[.tool_use ⟨"1", "tool", []⟩], "tool_use"⟩

/-- A two-object heap: address 0 holds the caller's history list, whose
single element lives at address 1. -/
def heap0 : Heap :=
  ⟨fun r =>
    if r = 0 then some (.pylist [1])
    else if r = 1 then some (.pymsg ⟨"user", .str "hi"⟩)
    else none, 2⟩

/-- An environment with only `GEMINI_API_KEY` set. -/
def envGeminiOnly : Env := fun k =>
  if k = "GEMINI_API_KEY" then some "g-key" else none

/-- An environment with both `OPENAI_API_KEY` and `ANTHROPIC_API_KEY`
set and no stored preference. -/
def envBothKeys : Env := fun k =>
  if k = "OPENAI_API_KEY" then some "sk-o"
  else if k = "ANTHROPIC_API_KEY" then some "sk-a"
  else none

/-- A session store with one session `"s"` holding ten entries. -/
def sessions0 : Sessions := fun s =>
  if s = "s" then some (List.replicate 10 ⟨"user", some "x"⟩) else none

/-- A session-ref table mapping session `"s"` to the list at address 0. -/
def sessionRefs0 : String → Option Nat := fun s =>
  if s = "s" then some 0 else none

/-! ### Helper lemmas: the tool phase -/

/-- If every tool call succeeds, `runToolCalls` succeeds and produces one
result per requested block, carrying the blocks' ids in order. -/
theorem runToolCalls_total (ct : CallToolFn) (hct : CallsOk ct) :
    ∀ bs : List ToolUseBlock, ∃ rs, runToolCalls ct bs = .ok rs ∧
      rs.map (·.tool_use_id) = bs.map (·.id)
  | [] => ⟨[], rfl, rfl⟩
  | b :: rest => by
      obtain ⟨r, hr⟩ := hct b.name b.input
      obtain ⟨rs, hrs, hids⟩ := runToolCalls_total ct hct rest
      refine ⟨⟨b.id, resultTextOf r⟩ :: rs, ?_, ?_⟩
      · simp [runToolCalls, hr, hrs]
      · simp [hids]

/-- Whatever results `runToolCalls` returns carry the requested blocks'
ids, in request order. -/
theorem runToolCalls_ids (ct : CallToolFn) :
    ∀ {bs : List ToolUseBlock} {rs : List AnthropicToolResult},
      runToolCalls ct bs = .ok rs → rs.map (·.tool_use_id) = bs.map (·.id) := by
  intro bs
  induction bs with
  | nil => intro rs h; simp [runToolCalls] at h; simp [← h]
  | cons b rest ih =>
    intro rs h
    simp only [runToolCalls] at h
    cases hcb : ct b.name b.input with
    | error e => rw [hcb] at h; simp at h
    | ok r =>
      rw [hcb] at h
      cases hrest : runToolCalls ct rest with
      | error e => rw [hrest] at h; simp at h
      | ok rs' =>
        rw [hrest] at h
        simp at h
        subst h
        simp [ih hrest]

/-- If one call raises and the calls before it succeed, `runToolCalls`
propagates the exception. -/
theorem runToolCalls_error (ct : CallToolFn) :
    ∀ (pre : List ToolUseBlock) (b : ToolUseBlock) (post : List ToolUseBlock) (e : String),
      (∀ b' ∈ pre, ∃ r, ct b'.name b'.input = .ok r) →
      ct b.name b.input = .error e →
      runToolCalls ct (pre ++ b :: post) = .error e
  | [], b, post, e, _, hb => by simp [runToolCalls, hb]
  | p :: pre, b, post, e, hpre, hb => by
      obtain ⟨r, hr⟩ := hpre p (List.mem_cons_self p pre)
      have ih := runToolCalls_error ct pre b post e
        (fun b' hb' => hpre b' (List.mem_cons_of_mem p hb')) hb
      simp [runToolCalls, hr, ih]

/-- The exception/result component of the Anthropic streaming tool phase
agrees with `runToolCalls` on the turn's `tool_use` blocks. -/
theorem streamToolPhase_snd (ct : CallToolFn) :
    ∀ content : List ContentBlock,
      (streamToolPhase ct content).2 = runToolCalls ct (toolUsesOf content) := by
  intro content
  induction content with
  | nil => rfl
  | cons blk rest ih =>
    cases blk with
    | text t => simpa [streamToolPhase, toolUsesOf] using ih
    | other => simpa [streamToolPhase, toolUsesOf] using ih
    | tool_use b =>
      cases hcb : ct b.name b.input with
      | error e =>
        simp [streamToolPhase, toolUsesOf, hcb, runToolCalls]
      | ok r =>
        simp only [streamToolPhase, toolUsesOf, List.filterMap_cons, hcb, runToolCalls]
        cases hrest : (streamToolPhase ct rest).2 with
        | error e =>
          rw [hrest] at ih
          simp only [toolUsesOf] at ih
          rw [← ih]
          rfl
        | ok rs =>
          rw [hrest] at ih
          simp only [toolUsesOf] at ih
          rw [← ih]
          rfl

/-- If every tool call succeeds, the Gemini tool phase succeeds. -/
theorem geminiToolPhase_total (ct : CallToolFn) (hct : CallsOk ct) :
    ∀ fcs : List FunctionCall, ∃ ps, (geminiToolPhase ct fcs).2 = .ok ps
  | [] => ⟨[], rfl⟩
  | fc :: rest => by
      obtain ⟨r, hr⟩ := hct fc.name fc.args
      obtain ⟨ps, hps⟩ := geminiToolPhase_total ct hct rest
      refine ⟨GeminiPart.functionResponse fc.name (resultTextOf r) :: ps, ?_⟩
      simp [geminiToolPhase, hr]
      cases h2 : (geminiToolPhase ct rest).2 with
      | error e => rw [h2] at hps; exact absurd hps (by simp)
      | ok ps' =>
        rw [h2] at hps
        simp at hps
        simp [hps, Except.map]

/-! ### Helper lemmas: the non-streaming loop -/

/-- `if text_parts: final_text.extend(text_parts)` extends by the (then
non-empty) list, so it is plain list append. -/
theorem extend_eq (acc l : List String) :
    (if l.isEmpty then acc else acc ++ l) = acc ++ l := by
  cases l <;> simp

theorem allTextParts_cons (t : ModelTurn) (l : List ModelTurn) :
    allTextParts (t :: l) = textPartsOf t.content ++ allTextParts l := by
  simp [allTextParts]

/-- On a well-formed script with all tool calls succeeding, the
non-streaming loop returns the newline-join of the accumulated and
remaining text parts. -/
theorem anthropicLoop_result (ct : CallToolFn) (hct : CallsOk ct) :
    ∀ (script : List ModelTurn) (response : ModelTurn) (messages : List PyMessage)
      (acc : List String), ScriptOk (response :: script) →
      (anthropicLoop ct script response messages acc).2 =
        .ok (String.intercalate "\n" (acc ++ allTextParts (response :: script)))
  | [], response, messages, acc, h => by
      have hterm : Terminal response := by
        cases h with
        | last ht => exact ht
        | cons hc hs => cases hs
      obtain ⟨hstop, _⟩ := hterm
      simp [anthropicLoop, extend_eq, hstop, allTextParts]
      by_cases htp : textPartsOf response.content = [] <;> simp [htp]
  | next :: rest, response, messages, acc, h => by
      have hc : Continuing response := by
        cases h with
        | cons hc _ => exact hc
      have hs : ScriptOk (next :: rest) := by
        cases h with
        | cons _ hs => exact hs
      obtain ⟨hstop, htools⟩ := hc
      obtain ⟨rs, hrs, _⟩ := runToolCalls_total ct hct (toolUsesOf response.content)
      have hcond : ¬(response.stop_reason ≠ "tool_use" ∨ toolUsesOf response.content = []) := by
        simp [hstop, htools]
      have ih := anthropicLoop_result ct hct rest next
        (messages ++ [⟨"assistant", .blocks response.content⟩] ++ [⟨"user", .results rs⟩])
        (acc ++ textPartsOf response.content) hs
      simp only [anthropicLoop, extend_eq]
      rw [if_neg hcond, hrs]
      simpa [allTextParts_cons, List.append_assoc] using ih

/-- Each provider call recorded by the non-streaming loop extends the
previous message list with the assistant turn and its matched tool
results, and the turn has at least one `tool_use` block. -/
theorem anthropicLoop_chain (ct : CallToolFn) :
    ∀ (script : List ModelTurn) (response : ModelTurn) (messages : List PyMessage)
      (acc : List String),
      ChainBy StepMsgsTooled messages (anthropicLoop ct script response messages acc).1
  | [], response, messages, acc => by
      by_cases hcond : response.stop_reason ≠ "tool_use" ∨ toolUsesOf response.content = []
      · simp [anthropicLoop, hcond, ChainBy]
      · simp only [anthropicLoop, extend_eq]
        rw [if_neg hcond]
        cases hrs : runToolCalls ct (toolUsesOf response.content) with
        | error e => simp [ChainBy]
        | ok rs =>
          simp only [ChainBy]
          refine ⟨⟨response.content, rs, by simp, runToolCalls_ids ct hrs, ?_⟩, trivial⟩
          intro hnil
          exact hcond (Or.inr hnil)
  | next :: rest, response, messages, acc => by
      by_cases hcond : response.stop_reason ≠ "tool_use" ∨ toolUsesOf response.content = []
      · simp [anthropicLoop, hcond, ChainBy]
      · simp only [anthropicLoop, extend_eq]
        rw [if_neg hcond]
        cases hrs : runToolCalls ct (toolUsesOf response.content) with
        | error e => simp [ChainBy]
        | ok rs =>
          have ih := anthropicLoop_chain ct rest next
            (messages ++ [⟨"assistant", .blocks response.content⟩] ++ [⟨"user", .results rs⟩])
            (acc ++ textPartsOf response.content)
          simp only [ChainBy]
          refine ⟨⟨response.content, rs, by simp, runToolCalls_ids ct hrs, ?_⟩, ?_⟩
          · intro hnil
            exact hcond (Or.inr hnil)
          · simpa using ih

/-- Each provider call recorded by the Anthropic streaming loop extends
the previous message list with the assistant turn and its matched tool
results. -/
theorem streamingLoop_chain (ct : CallToolFn) :
    ∀ (script : List ModelTurn) (final : ModelTurn) (messages : List PyMessage),
      ChainBy StepMsgs messages (streamingLoop ct script final messages).1
  | [], final, messages => by
      by_cases hstop : final.stop_reason ≠ "tool_use"
      · simp [streamingLoop, hstop, ChainBy]
      · simp only [streamingLoop]
        rw [if_neg hstop]
        cases hrs : (streamToolPhase ct final.content).2 with
        | error e => simp [hrs, ChainBy]
        | ok rs =>
          have hids := runToolCalls_ids ct (streamToolPhase_snd ct final.content ▸ hrs)
          simp only [hrs, ChainBy]
          exact ⟨⟨final.content, rs, by simp, hids⟩, trivial⟩
  | next :: rest, final, messages => by
      by_cases hstop : final.stop_reason ≠ "tool_use"
      · simp [streamingLoop, hstop, ChainBy]
      · simp only [streamingLoop]
        rw [if_neg hstop]
        cases hrs : (streamToolPhase ct final.content).2 with
        | error e => simp [hrs, ChainBy]
        | ok rs =>
          have hids := runToolCalls_ids ct (streamToolPhase_snd ct final.content ▸ hrs)
          have ih := streamingLoop_chain ct rest next
            (messages ++ [⟨"assistant", .blocks final.content⟩] ++ [⟨"user", .results rs⟩])
          simp only [hrs, ChainBy]
          exact ⟨⟨final.content, rs, by simp, hids⟩, by simpa using ih⟩

/-- From a chained call record, any two consecutive recorded lists
(starting from the initial one) are related by the step relation. -/
theorem chainBy_get (P : List PyMessage → List PyMessage → Prop) :
    ∀ (l : List (List PyMessage)) (prev : List PyMessage), ChainBy P prev l →
      ∀ (i : Nat) (ms ms' : List PyMessage),
        (prev :: l)[i]? = some ms → (prev :: l)[i + 1]? = some ms' → P ms ms'
  | [], _, _, i, ms, ms', _, h' => by
      rcases i with _ | j <;> simp at h'
  | m :: rest, prev, hch, i, ms, ms', h, h' => by
      rcases i with _ | j
      · simp at h h'
        subst h; subst h'
        exact hch.1
      · exact chainBy_get P rest m hch.2 j ms ms' (by simpa using h) (by simpa using h')

/-! ### Helper lemmas: streamed chunks and sentinels -/

theorem deltaTexts_append (l1 l2 : List StreamEv) :
    deltaTexts (l1 ++ l2) = deltaTexts l1 ++ deltaTexts l2 := by
  simp [deltaTexts]

theorem markerTexts_append (l1 l2 : List StreamEv) :
    markerTexts (l1 ++ l2) = markerTexts l1 ++ markerTexts l2 := by
  simp [markerTexts]

theorem deltaTexts_map_delta (l : List String) :
    deltaTexts (l.map StreamEv.delta) = l := by
  induction l with
  | nil => rfl
  | cons s rest ih => simp [deltaTexts] at ih ⊢; exact ih

theorem markerTexts_map_delta (l : List String) :
    markerTexts (l.map StreamEv.delta) = [] := by
  induction l with
  | nil => rfl
  | cons s rest ih => simp [markerTexts] at ih ⊢

/-- The Anthropic streaming tool phase yields no text deltas. -/
theorem deltaTexts_streamToolPhase (ct : CallToolFn) :
    ∀ content : List ContentBlock, deltaTexts (streamToolPhase ct content).1 = [] := by
  intro content
  induction content with
  | nil => rfl
  | cons blk rest ih =>
    cases blk with
    | text t => simpa [streamToolPhase] using ih
    | other => simpa [streamToolPhase] using ih
    | tool_use b =>
      cases hcb : ct b.name b.input with
      | error e => simp [streamToolPhase, hcb, deltaTexts]
      | ok r => simpa [streamToolPhase, hcb, deltaTexts] using ih

/-- The Anthropic streaming tool phase of a turn with no `tool_use`
blocks yields no events at all. -/
theorem streamToolPhase_no_tools (ct : CallToolFn) :
    ∀ content : List ContentBlock, toolUsesOf content = [] →
      streamToolPhase ct content = ([], .ok []) := by
  intro content
  induction content with
  | nil => intro _; rfl
  | cons blk rest ih =>
    intro hnone
    cases blk with
    | text t =>
      have hr : toolUsesOf rest = [] := by simpa [toolUsesOf] using hnone
      simpa [streamToolPhase] using ih hr
    | other =>
      have hr : toolUsesOf rest = [] := by simpa [toolUsesOf] using hnone
      simpa [streamToolPhase] using ih hr
    | tool_use b =>
      simp [toolUsesOf] at hnone

/-- On a well-formed script with all tool calls succeeding, the deltas
yielded by the Anthropic streaming loop are exactly the script's text
parts, in order. -/
theorem streamingLoop_deltas (ct : CallToolFn) (hct : CallsOk ct) :
    ∀ (script : List ModelTurn) (final : ModelTurn) (messages : List PyMessage),
      ScriptOk (final :: script) →
      deltaTexts (streamingLoop ct script final messages).2.1 =
        allTextParts (final :: script)
  | [], final, messages, h => by
      have hterm : Terminal final := by
        cases h with
        | last ht => exact ht
        | cons hc hs => cases hs
      simp [streamingLoop, hterm.1, deltaTexts_map_delta, allTextParts]
  | next :: rest, final, messages, h => by
      have hc : Continuing final := by
        cases h with
        | cons hc _ => exact hc
      have hs : ScriptOk (next :: rest) := by
        cases h with
        | cons _ hs => exact hs
      obtain ⟨rs, hrs, _⟩ := runToolCalls_total ct hct (toolUsesOf final.content)
      have hphase : (streamToolPhase ct final.content).2 = .ok rs :=
        (streamToolPhase_snd ct final.content).trans hrs
      have ih := streamingLoop_deltas ct hct rest next
        (messages ++ [⟨"assistant", .blocks final.content⟩] ++ [⟨"user", .results rs⟩]) hs
      simp only [streamingLoop]
      rw [if_neg (by simp [hc.1]), hphase]
      simp only [hphase, allTextParts_cons, deltaTexts_append,
        deltaTexts_map_delta, deltaTexts_streamToolPhase]
      simpa using ih

theorem evsOk_append {l1 l2 : List StreamEv} (h1 : EvsOk l1) (h2 : EvsOk l2) :
    EvsOk (l1 ++ l2) := by
  induction h1 with
  | nil => exact h2
  | delta s _ ih => exact .delta s ih
  | pair name args _ ih => exact .pair name args ih

theorem evsOk_map_delta (l : List String) : EvsOk (l.map StreamEv.delta) := by
  induction l with
  | nil => exact .nil
  | cons s rest ih => exact .delta s ih

/-- The Anthropic streaming tool phase yields a well-formed
sentinel/invocation trace. -/
theorem evsOk_streamToolPhase (ct : CallToolFn) :
    ∀ content : List ContentBlock, EvsOk (streamToolPhase ct content).1 := by
  intro content
  induction content with
  | nil => exact .nil
  | cons blk rest ih =>
    cases blk with
    | text t => simpa [streamToolPhase] using ih
    | other => simpa [streamToolPhase] using ih
    | tool_use b =>
      cases hcb : ct b.name b.input with
      | error e =>
        simp only [streamToolPhase, hcb]
        exact .pair b.name b.input .nil
      | ok r =>
        simp only [streamToolPhase, hcb]
        exact .pair b.name b.input ih

/-- The full Anthropic streaming event trace is well formed. -/
theorem evsOk_streamingLoop (ct : CallToolFn) :
    ∀ (script : List ModelTurn) (final : ModelTurn) (messages : List PyMessage),
      EvsOk (streamingLoop ct script final messages).2.1
  | [], final, messages => by
      by_cases hstop : final.stop_reason ≠ "tool_use"
      · simpa [streamingLoop, hstop] using evsOk_map_delta (textPartsOf final.content)
      · simp only [streamingLoop]
        rw [if_neg hstop]
        cases hrs : (streamToolPhase ct final.content).2 with
        | error e =>
          simpa [hrs] using evsOk_append (evsOk_map_delta _) (evsOk_streamToolPhase ct _)
        | ok rs =>
          simpa [hrs] using evsOk_append (evsOk_map_delta _) (evsOk_streamToolPhase ct _)
  | next :: rest, final, messages => by
      by_cases hstop : final.stop_reason ≠ "tool_use"
      · simpa [streamingLoop, hstop] using evsOk_map_delta (textPartsOf final.content)
      · simp only [streamingLoop]
        rw [if_neg hstop]
        cases hrs : (streamToolPhase ct final.content).2 with
        | error e =>
          simpa [hrs] using evsOk_append (evsOk_map_delta _) (evsOk_streamToolPhase ct _)
        | ok rs =>
          have ih := evsOk_streamingLoop ct rest next
            (messages ++ [⟨"assistant", .blocks final.content⟩] ++ [⟨"user", .results rs⟩])
          simpa [hrs] using evsOk_append (evsOk_map_delta _)
            (evsOk_append (evsOk_streamToolPhase ct _) (by simpa using ih))

/-- The Gemini chunk scan yields deltas only, hence a well-formed trace. -/
theorem evsOk_geminiScan : ∀ parts : List GeminiPart, EvsOk (geminiScan parts).2.2 := by
  intro parts
  induction parts with
  | nil => exact .nil
  | cons p rest ih =>
    cases p with
    | text t =>
      by_cases ht : t = "" <;> simp only [geminiScan, ht]
      · simpa using ih
      · simpa [ht] using EvsOk.delta t ih
    | functionCall fc => simpa [geminiScan] using ih
    | functionResponse n r => simpa [geminiScan] using ih

/-- The Gemini tool phase yields a well-formed sentinel/invocation
trace. -/
theorem evsOk_geminiToolPhase (ct : CallToolFn) :
    ∀ fcs : List FunctionCall, EvsOk (geminiToolPhase ct fcs).1 := by
  intro fcs
  induction fcs with
  | nil => exact .nil
  | cons fc rest ih =>
    cases hcb : ct fc.name fc.args with
    | error e =>
      simp only [geminiToolPhase, hcb]
      exact .pair fc.name fc.args .nil
    | ok r =>
      simp only [geminiToolPhase, hcb]
      exact .pair fc.name fc.args ih

/-- The full Gemini streaming event trace is well formed. -/
theorem evsOk_geminiLoop (ct : CallToolFn) :
    ∀ (script : List (List GeminiPart)) (parts : List GeminiPart)
      (contents : List GeminiContent),
      EvsOk (geminiLoop ct script parts contents).2.1
  | [], parts, contents => by
      by_cases hfc : (geminiScan parts).2.1 = []
      · simpa [geminiLoop, hfc] using evsOk_geminiScan parts
      · simp only [geminiLoop]
        rw [if_neg hfc]
        cases hrs : (geminiToolPhase ct (geminiScan parts).2.1).2 with
        | error e =>
          simpa [hrs] using evsOk_append (evsOk_geminiScan parts) (evsOk_geminiToolPhase ct _)
        | ok ps =>
          simpa [hrs] using evsOk_append (evsOk_geminiScan parts) (evsOk_geminiToolPhase ct _)
  | next :: rest, parts, contents => by
      by_cases hfc : (geminiScan parts).2.1 = []
      · simpa [geminiLoop, hfc] using evsOk_geminiScan parts
      · simp only [geminiLoop]
        rw [if_neg hfc]
        cases hrs : (geminiToolPhase ct (geminiScan parts).2.1).2 with
        | error e =>
          simpa [hrs] using evsOk_append (evsOk_geminiScan parts) (evsOk_geminiToolPhase ct _)
        | ok ps =>
          have ih := evsOk_geminiLoop ct rest next
            (contents ++ [⟨"model", (geminiScan parts).1⟩] ++ [⟨"user", ps⟩])
          simpa [hrs] using evsOk_append (evsOk_geminiScan parts)
            (evsOk_append (evsOk_geminiToolPhase ct _) (by simpa using ih))

/-- In a well-formed trace the sentinel chunks are exactly the invoked
tool names in the exact `"\n[Tool: <name>]\n"` form, in invocation
order. -/
theorem evsOk_markers {evs : List StreamEv} (h : EvsOk evs) :
    markerTexts evs = (invokedNames evs).map markerString := by
  induction h with
  | nil => rfl
  | delta s _ ih => simpa [markerTexts, invokedNames] using ih
  | pair name args _ ih => simpa [markerTexts, invokedNames] using ih

/-- If no turn of the script carries a `tool_use` block, the Anthropic
streaming loop yields no sentinel chunks. -/
theorem streamingLoop_no_markers (ct : CallToolFn) :
    ∀ (script : List ModelTurn) (final : ModelTurn) (messages : List PyMessage),
      toolUsesOf final.content = [] → (∀ t ∈ script, toolUsesOf t.content = []) →
      markerTexts (streamingLoop ct script final messages).2.1 = []
  | [], final, messages, hfin, _ => by
      by_cases hstop : final.stop_reason ≠ "tool_use"
      · simp [streamingLoop, hstop, markerTexts_map_delta]
      · simp only [streamingLoop]
        rw [if_neg hstop, streamToolPhase_no_tools ct final.content hfin]
        simp [markerTexts_append, markerTexts_map_delta, markerTexts]
  | next :: rest, final, messages, hfin, hscript => by
      by_cases hstop : final.stop_reason ≠ "tool_use"
      · simp [streamingLoop, hstop, markerTexts_map_delta]
      · have ih := streamingLoop_no_markers ct rest next
          (messages ++ [⟨"assistant", .blocks final.content⟩] ++ [⟨"user", .results []⟩])
          (hscript next (List.mem_cons_self next rest))
          (fun t ht => hscript t (List.mem_cons_of_mem next ht))
        simp only [streamingLoop]
        rw [if_neg hstop, streamToolPhase_no_tools ct final.content hfin]
        simpa [markerTexts_append, markerTexts_map_delta, markerTexts] using ih

/-- The Gemini chunk scan yields no sentinel chunks. -/
theorem markerTexts_geminiScan : ∀ parts : List GeminiPart,
    markerTexts (geminiScan parts).2.2 = [] := by
  intro parts
  induction parts with
  | nil => rfl
  | cons p rest ih =>
    cases p with
    | text t =>
      by_cases ht : t = "" <;> simp only [geminiScan, ht] <;> simpa [markerTexts, ht] using ih
    | functionCall fc => simpa [geminiScan] using ih
    | functionResponse n r => simpa [geminiScan] using ih

/-- A Gemini turn that accumulates no function calls yields no sentinel
chunks (the loop ends right there). -/
theorem geminiLoop_no_markers (ct : CallToolFn) :
    ∀ (script : List (List GeminiPart)) (parts : List GeminiPart)
      (contents : List GeminiContent),
      functionCallsOf parts = [] →
      markerTexts (geminiLoop ct script parts contents).2.1 = [] := by
  intro script parts contents hfc
  cases script with
  | nil =>
    simp only [geminiLoop]
    rw [if_pos (by simpa [functionCallsOf] using hfc)]
    exact markerTexts_geminiScan parts
  | cons next rest =>
    simp only [geminiLoop]
    rw [if_pos (by simpa [functionCallsOf] using hfc)]
    exact markerTexts_geminiScan parts

/-! ### Helper lemmas: heap frame properties -/

/-- `appendMsg` leaves every object other than the target list and the
freshly allocated element untouched, and strictly grows `next`. -/
theorem appendMsg_objs (h : Heap) (listRef : Nat) (m : PyMessage) (r : Nat)
    (hr : r < h.next) (hne : r ≠ listRef) :
    (appendMsg h listRef m).objs r = h.objs r := by
  simp only [appendMsg, appendRef, Heap.alloc, Heap.setObj, Heap.listAt]
  have h1 : r ≠ h.next := Nat.ne_of_lt hr
  simp [hne, h1]

theorem appendMsg_next (h : Heap) (listRef : Nat) (m : PyMessage) :
    (appendMsg h listRef m).next = h.next + 1 := rfl

/-- The heap-level query loop only writes to the working message list and
to fresh addresses: every address below a bound `N ≤ next` other than the
message-list address keeps its object. -/
theorem heapQueryLoop_frame (ct : CallToolFn) :
    ∀ (script : List ModelTurn) (response : ModelTurn) (h : Heap) (mref : Nat)
      (acc : List String) (N : Nat), N ≤ h.next →
      ∀ r, r < N → r ≠ mref →
        ((heapQueryLoop ct script response h mref acc).1).objs r = h.objs r
  | [], response, h, mref, acc, N, hN, r, hr, hne => by
      by_cases hcond : response.stop_reason ≠ "tool_use" ∨ toolUsesOf response.content = []
      · simp [heapQueryLoop, hcond]
      · simp only [heapQueryLoop, extend_eq]
        rw [if_neg hcond]
        cases hrs : runToolCalls ct (toolUsesOf response.content) with
        | error e =>
          exact appendMsg_objs h mref _ r (lt_of_lt_of_le hr hN) hne
        | ok rs =>
          rw [appendMsg_objs _ mref _ r
            (by rw [appendMsg_next]; omega) hne]
          exact appendMsg_objs h mref _ r (lt_of_lt_of_le hr hN) hne
  | next :: rest, response, h, mref, acc, N, hN, r, hr, hne => by
      by_cases hcond : response.stop_reason ≠ "tool_use" ∨ toolUsesOf response.content = []
      · simp [heapQueryLoop, hcond]
      · simp only [heapQueryLoop, extend_eq]
        rw [if_neg hcond]
        cases hrs : runToolCalls ct (toolUsesOf response.content) with
        | error e =>
          exact appendMsg_objs h mref _ r (lt_of_lt_of_le hr hN) hne
        | ok rs =>
          rw [heapQueryLoop_frame ct rest next _ mref _ N
            (by rw [appendMsg_next, appendMsg_next]; omega) r hr hne]
          rw [appendMsg_objs _ mref _ r (by rw [appendMsg_next]; omega) hne]
          exact appendMsg_objs h mref _ r (lt_of_lt_of_le hr hN) hne

/-- Same frame property for the heap-level streaming loop. -/
theorem heapStreamingLoop_frame (ct : CallToolFn) :
    ∀ (script : List ModelTurn) (final : ModelTurn) (h : Heap) (mref : Nat)
      (N : Nat), N ≤ h.next →
      ∀ r, r < N → r ≠ mref →
        ((heapStreamingLoop ct script final h mref).1).objs r = h.objs r
  | [], final, h, mref, N, hN, r, hr, hne => by
      by_cases hstop : final.stop_reason ≠ "tool_use"
      · simp [heapStreamingLoop, hstop]
      · simp only [heapStreamingLoop]
        rw [if_neg hstop]
        cases hrs : (streamToolPhase ct final.content).2 with
        | error e =>
          exact appendMsg_objs h mref _ r (lt_of_lt_of_le hr hN) hne
        | ok rs =>
          rw [appendMsg_objs _ mref _ r (by rw [appendMsg_next]; omega) hne]
          exact appendMsg_objs h mref _ r (lt_of_lt_of_le hr hN) hne
  | next :: rest, final, h, mref, N, hN, r, hr, hne => by
      by_cases hstop : final.stop_reason ≠ "tool_use"
      · simp [heapStreamingLoop, hstop]
      · simp only [heapStreamingLoop]
        rw [if_neg hstop]
        cases hrs : (streamToolPhase ct final.content).2 with
        | error e =>
          exact appendMsg_objs h mref _ r (lt_of_lt_of_le hr hN) hne
        | ok rs =>
          rw [heapStreamingLoop_frame ct rest next _ mref N
            (by rw [appendMsg_next, appendMsg_next]; omega) r hr hne]
          rw [appendMsg_objs _ mref _ r (by rw [appendMsg_next]; omega) hne]
          exact appendMsg_objs h mref _ r (lt_of_lt_of_le hr hN) hne

/-! ### Helper lemmas: provider-call counts on all-tool scripts -/

/-- Driving the non-streaming loop with `n` further all-tool turns makes
`n + 1` further provider calls (the last of which exhausts the script). -/
theorem anthropicLoop_count :
    ∀ (n : Nat) (messages : List PyMessage) (acc : List String),
      (anthropicLoop ctNil (List.replicate n toolTurn) toolTurn messages acc).1.length = n + 1
  | 0, messages, acc => by
      simp [anthropicLoop, toolTurn, toolUsesOf, textPartsOf, runToolCalls, ctNil]
  | n + 1, messages, acc => by
      have ih := anthropicLoop_count n
        (messages ++ [⟨"assistant", .blocks toolTurn.content⟩]
          ++ [⟨"user", .results [⟨"1", resultTextOf []⟩]⟩]) acc
      simp only [List.replicate_succ]
      simp [anthropicLoop, toolTurn, toolUsesOf, textPartsOf, runToolCalls, ctNil] at ih ⊢
      omega

/-- Same count for the Anthropic streaming loop. -/
theorem streamingLoop_count :
    ∀ (n : Nat) (messages : List PyMessage),
      (streamingLoop ctNil (List.replicate n toolTurn) toolTurn messages).1.length = n + 1
  | 0, messages => by
      simp [streamingLoop, toolTurn, streamToolPhase, ctNil, Except.map]
  | n + 1, messages => by
      have ih := streamingLoop_count n
        (messages ++ [⟨"assistant", .blocks toolTurn.content⟩]
          ++ [⟨"user", .results [⟨"1", resultTextOf []⟩]⟩])
      simp only [List.replicate_succ]
      simp [streamingLoop, toolTurn, streamToolPhase, ctNil, Except.map] at ih ⊢
      omega

/-! ### Helper lemmas: exception propagation out of the loops -/

/-- If invoking the current turn's tools raises, the non-streaming loop
propagates the exception and records no further provider call. -/
theorem anthropicLoop_error (ct : CallToolFn) (script : List ModelTurn)
    (response : ModelTurn) (messages : List PyMessage) (acc : List String) (e : String)
    (hstop : response.stop_reason = "tool_use")
    (hne : toolUsesOf response.content ≠ [])
    (herr : runToolCalls ct (toolUsesOf response.content) = .error e) :
    anthropicLoop ct script response messages acc = ([], .error e) := by
  have hcond : ¬(response.stop_reason ≠ "tool_use" ∨ toolUsesOf response.content = []) := by
    simp [hstop, hne]
  cases script with
  | nil =>
    simp only [anthropicLoop, extend_eq]
    rw [if_neg hcond, herr]
  | cons next rest =>
    simp only [anthropicLoop, extend_eq]
    rw [if_neg hcond, herr]

/-- If invoking the current turn's tools raises, the streaming loop
propagates the exception (after the chunks yielded so far) and records no
further provider call. -/
theorem streamingLoop_error (ct : CallToolFn) (script : List ModelTurn)
    (final : ModelTurn) (messages : List PyMessage) (e : String)
    (hstop : final.stop_reason = "tool_use")
    (herr : (streamToolPhase ct final.content).2 = .error e) :
    (streamingLoop ct script final messages).1 = [] ∧
    (streamingLoop ct script final messages).2.2 = .error e := by
  cases script with
  | nil =>
    simp only [streamingLoop]
    rw [if_neg (by simp [hstop]), herr]
    exact ⟨rfl, rfl⟩
  | cons next rest =>
    simp only [streamingLoop]
    rw [if_neg (by simp [hstop]), herr]
    exact ⟨rfl, rfl⟩

/-! ### The claims -/

/-- C1 (counterexample): with two tool calls requested in one turn, where
the first (`"a"`) raises and the second (`"b"`) would succeed, the
non-streaming query raises (`.error "boom"`), makes no further provider
call (leaving the other call's result unappended), and the streaming
query raises too — contradicting the claim that the exception is not
propagated and the loop proceeds. -/
theorem C1_counterexample :
    (process_query_anthropic ctFailA "q" [] [twoToolTurn, doneTurn]).result =
      .error "boom" ∧
    (process_query_anthropic ctFailA "q" [] [twoToolTurn, doneTurn]).providerCalls.length = 1 ∧
    (process_streaming_query ctFailA "q" [] [twoToolTurn, doneTurn]).outcome =
      .error "boom" :=
  ⟨rfl, rfl, rfl⟩

/-- C1 (amended): if `session.call_tool` raises for one of the requested
calls in a turn (the calls before it succeeding), both the non-streaming
and the Anthropic streaming loop propagate the exception: the loop result
is that error, and no further provider call is recorded — there is no
`try`/`except` around `session.call_tool` in `client_utils.py`. -/
theorem C1_tool_exception_propagates (ct : CallToolFn) (script : List ModelTurn)
    (response : ModelTurn) (messages : List PyMessage) (acc : List String)
    (pre : List ToolUseBlock) (b : ToolUseBlock) (post : List ToolUseBlock) (e : String)
    (hstop : response.stop_reason = "tool_use")
    (hsplit : toolUsesOf response.content = pre ++ b :: post)
    (hpre : ∀ b' ∈ pre, ∃ r, ct b'.name b'.input = .ok r)
    (hb : ct b.name b.input = .error e) :
    (anthropicLoop ct script response messages acc).2 = .error e ∧
    (anthropicLoop ct script response messages acc).1 = [] ∧
    (streamingLoop ct script response messages).2.2 = .error e ∧
    (streamingLoop ct script response messages).1 = [] := by
  have herr : runToolCalls ct (toolUsesOf response.content) = .error e := by
    rw [hsplit]; exact runToolCalls_error ct pre b post e hpre hb
  have hne : toolUsesOf response.content ≠ [] := by simp [hsplit]
  have h1 := anthropicLoop_error ct script response messages acc e hstop hne herr
  have h2 := streamingLoop_error ct script response messages e hstop
    ((streamToolPhase_snd ct response.content).trans herr)
  exact ⟨by rw [h1], by rw [h1], h2.2, h2.1⟩

/-- C1 (witness): the amended claim instantiated at the concrete failing
run of `C1_counterexample`. -/
theorem C1_witness :
    (anthropicLoop ctFailA [doneTurn] twoToolTurn [] []).2 = .error "boom" ∧
    (anthropicLoop ctFailA [doneTurn] twoToolTurn [] []).1 = [] ∧
    (streamingLoop ctFailA [doneTurn] twoToolTurn []).2.2 = .error "boom" ∧
    (streamingLoop ctFailA [doneTurn] twoToolTurn []).1 = [] :=
  C1_tool_exception_propagates ctFailA [doneTurn] twoToolTurn [] []
    [] ⟨"1", "a", []⟩ [⟨"2", "b", []⟩] "boom"
    rfl (by decide) (by simp) rfl

/-- C2 (counterexample): a single terminal turn with text parts `"A"` and
`"B"` makes the non-streaming query return `"A\nB"` — the parts joined
with a newline separator — not their concatenation `"AB"`. -/
theorem C2_counterexample :
    (process_query_anthropic ctOk "q" [] [twoTextTurn]).result = .ok "A\nB" ∧
    "A\nB" ≠ "A" ++ "B" :=
  ⟨rfl, by decide⟩

/-- C2 (amended): for any provider response sequence in which every turn
before the last requests tools, whose final turn has a non-`"tool_use"`
stop reason and no tool-call blocks, and whose tool calls all succeed,
`process_query_anthropic` terminates and returns the text parts seen
across all turns, in turn order, joined with `"\n"` separators
(`"\n".join(final_text)`). -/
theorem C2_returns_newline_join (ct : CallToolFn) (q : String)
    (history : List PyMessage) (script : List ModelTurn)
    (hct : CallsOk ct) (hscript : ScriptOk script) :
    (process_query_anthropic ct q history script).result =
      .ok (String.intercalate "\n" (allTextParts script)) := by
  cases script with
  | nil => cases hscript
  | cons response rest =>
    have h := anthropicLoop_result ct hct rest response
      ((history ++ [⟨"user", .str q⟩])) [] hscript
    simpa [process_query_anthropic] using h

/-- C2 (witness): the amended claim instantiated at a concrete two-turn
script (one tool turn, one terminal turn). -/
theorem C2_witness :
    (process_query_anthropic ctOk "q" [] [textToolTurn, doneBTurn]).result =
      .ok "A\nB" := by
  have h := C2_returns_newline_join ctOk "q" [] [textToolTurn, doneBTurn]
    (fun n a => ⟨[.text "ok"], rfl⟩)
    (.cons ⟨rfl, by decide⟩ (.last ⟨by decide, by decide⟩))
  exact h.trans (by rfl)

/-- C3: in both the non-streaming and the Anthropic streaming loop, any
two consecutive provider calls are related by the extension shape: the
later message list is the earlier one plus exactly one assistant message
holding the raw turn content, followed by one message holding one tool
result per requested call id, in request order (so no provider call ever
sees an unanswered tool call from a previous loop turn); in the
non-streaming loop the turn moreover has at least one `tool_use`
block. -/
theorem C3_tool_round_trip_shape (ct : CallToolFn) (q : String)
    (history : List PyMessage) (script : List ModelTurn)
    (i : Nat) (ms ms' : List PyMessage) :
    ((process_query_anthropic ct q history script).providerCalls[i]? = some ms →
     (process_query_anthropic ct q history script).providerCalls[i + 1]? = some ms' →
     StepMsgsTooled ms ms') ∧
    ((process_streaming_query ct q history script).providerCalls[i]? = some ms →
     (process_streaming_query ct q history script).providerCalls[i + 1]? = some ms' →
     StepMsgs ms ms') := by
  constructor
  · intro h h'
    cases script with
    | nil => simp [process_query_anthropic] at h'
    | cons response rest =>
      have hch := anthropicLoop_chain ct rest response (history ++ [⟨"user", .str q⟩]) []
      exact chainBy_get StepMsgsTooled _ _ hch i ms ms'
        (by simpa [process_query_anthropic] using h)
        (by simpa [process_query_anthropic] using h')
  · intro h h'
    cases script with
    | nil => simp [process_streaming_query] at h'
    | cons final rest =>
      have hch := streamingLoop_chain ct rest final (history ++ [⟨"user", .str q⟩])
      exact chainBy_get StepMsgs _ _ hch i ms ms'
        (by simpa [process_streaming_query] using h)
        (by simpa [process_streaming_query] using h')

/-- C3 (witness): the round-trip shape at the first turn of a concrete
one-tool run. -/
theorem C3_witness :
    StepMsgsTooled [⟨"user", .str "q"⟩]
      [⟨"user", .str "q"⟩,
       ⟨"assistant", .blocks [.text "A", .tool_use ⟨"1", "t", []⟩]⟩,
       ⟨"user", .results [⟨"1", "ok"⟩]⟩] :=
  (C3_tool_round_trip_shape ctOk "q" [] [textToolTurn, doneBTurn] 0
    [⟨"user", .str "q"⟩]
    [⟨"user", .str "q"⟩,
     ⟨"assistant", .blocks [.text "A", .tool_use ⟨"1", "t", []⟩]⟩,
     ⟨"user", .results [⟨"1", "ok"⟩]⟩]).1 rfl rfl

/-- C4 (counterexample): feeding the Anthropic streaming loop a completed
turn that carries stop reason `"tool_use"` but zero tool-call blocks, the
loop does not terminate: it opens a second provider call (2 recorded
provider calls, no tool invoked) — contradicting "if a turn completes
with no tool-call blocks the loop terminates without a further provider
call". -/
theorem C4_counterexample :
    (process_streaming_query ctOk "q" [] [emptyToolUseTurn, doneBTurn]).providerCalls.length = 2 ∧
    invokedNames (process_streaming_query ctOk "q" [] [emptyToolUseTurn, doneBTurn]).events = [] ∧
    (process_streaming_query ctOk "q" [] [emptyToolUseTurn, doneBTurn]).providerCalls.length ≠ 1 :=
  ⟨rfl, rfl, by decide⟩

/-- C4 (amended): the Gemini streaming loop ends exactly when a completed
turn accumulates zero function calls, as claimed; the Anthropic streaming
loop instead ends exactly when the completed turn's stop reason is not
`"tool_use"` — a turn with stop reason `"tool_use"` triggers a further
provider call even with zero accumulated tool-call blocks. -/
theorem C4_streaming_loop_termination (ct : CallToolFn)
    (script : List ModelTurn) (final : ModelTurn) (messages : List PyMessage)
    (next : ModelTurn) (rest : List ModelTurn)
    (gscript : List (List GeminiPart)) (parts : List GeminiPart)
    (contents : List GeminiContent)
    (gnext : List GeminiPart) (grest : List (List GeminiPart))
    (hct : CallsOk ct) :
    (final.stop_reason ≠ "tool_use" →
      streamingLoop ct script final messages =
        ([], (textPartsOf final.content).map StreamEv.delta, .ok ())) ∧
    (final.stop_reason = "tool_use" → script = next :: rest →
      (streamingLoop ct script final messages).1 ≠ []) ∧
    (functionCallsOf parts = [] →
      geminiLoop ct gscript parts contents = ([], (geminiScan parts).2.2, .ok ())) ∧
    (functionCallsOf parts ≠ [] → gscript = gnext :: grest →
      (geminiLoop ct gscript parts contents).1 ≠ []) := by
  refine ⟨?_, ?_, ?_, ?_⟩
  · intro hstop
    cases script <;> simp [streamingLoop, hstop]
  · intro hstop hscript
    subst hscript
    obtain ⟨rs, hrs, _⟩ := runToolCalls_total ct hct (toolUsesOf final.content)
    have hphase : (streamToolPhase ct final.content).2 = .ok rs :=
      (streamToolPhase_snd ct final.content).trans hrs
    simp only [streamingLoop]
    rw [if_neg (by simp [hstop]), hphase]
    simp
  · intro hfc
    cases gscript with
    | nil =>
      simp only [geminiLoop]
      rw [if_pos (by simpa [functionCallsOf] using hfc)]
    | cons gn gr =>
      simp only [geminiLoop]
      rw [if_pos (by simpa [functionCallsOf] using hfc)]
  · intro hfc hgscript
    subst hgscript
    obtain ⟨ps, hps⟩ := geminiToolPhase_total ct hct (functionCallsOf parts)
    simp only [geminiLoop]
    rw [if_neg (by simpa [functionCallsOf] using hfc)]
    rw [show (geminiToolPhase ct (geminiScan parts).2.1).2 = .ok ps from hps]
    simp

/-- C4 (witness): the amended claim at concrete turns — a terminal
Anthropic turn, a continuing Anthropic turn, a Gemini turn with no
function calls, and a Gemini turn with one function call. -/
theorem C4_witness :
    streamingLoop ctOk [] doneBTurn [] = ([], [.delta "B"], .ok ()) ∧
    (streamingLoop ctOk [doneBTurn] textToolTurn []).1 ≠ [] ∧
    geminiLoop ctOk [] [.text "done"] [] = ([], [.delta "done"], .ok ()) ∧
    (geminiLoop ctOk [[.text "x"]] [.functionCall ⟨"t", []⟩] []).1 ≠ [] := by
  have hct : CallsOk ctOk := fun n a => ⟨[.text "ok"], rfl⟩
  have h1 := C4_streaming_loop_termination ctOk [] doneBTurn [] doneBTurn []
    [] [.text "done"] [] [] [] hct
  have h2 := C4_streaming_loop_termination ctOk [doneBTurn] textToolTurn [] doneBTurn []
    [[.text "x"]] [.functionCall ⟨"t", []⟩] [] [.text "x"] [] hct
  refine ⟨(h1.1 (by decide)).trans (by rfl), h2.2.1 (by decide) rfl, ?_, ?_⟩
  · exact (h1.2.2.1 (by decide)).trans (by rfl)
  · exact h2.2.2.2 (by decide) rfl

/-- C5 (counterexample): on a two-turn script (text `"A"` plus a tool
call, then text `"B"`), the streamed text-delta chunks concatenate to
`"AB"` while the non-streaming path returns `"A\nB"` — the two paths do
not agree on logically identical provider content. -/
theorem C5_counterexample :
    String.join (deltaTexts (process_streaming_query ctOk "q" [] [textToolTurn, doneBTurn]).events) = "AB" ∧
    (process_query_anthropic ctOk "q" [] [textToolTurn, doneBTurn]).result = .ok "A\nB" ∧
    "AB" ≠ "A\nB" :=
  ⟨rfl, rfl, by decide⟩

/-- C5 (amended): against the same scripted provider content, the
concatenation of the streamed text-delta chunks (sentinels excluded)
equals the plain concatenation of all text parts, while the non-streaming
final text is the newline-join of those same parts — the two agree
exactly when at most one text part is produced. -/
theorem C5_streaming_vs_blocking (ct : CallToolFn) (q : String)
    (history : List PyMessage) (script : List ModelTurn)
    (hct : CallsOk ct) (hscript : ScriptOk script) :
    String.join (deltaTexts (process_streaming_query ct q history script).events) =
      String.join (allTextParts script) ∧
    (process_query_anthropic ct q history script).result =
      .ok (String.intercalate "\n" (allTextParts script)) := by
  cases script with
  | nil => cases hscript
  | cons final rest =>
    constructor
    · have h := streamingLoop_deltas ct hct rest final
        (history ++ [⟨"user", .str q⟩]) hscript
      simp only [process_streaming_query]
      simpa using congrArg String.join h
    · have h := anthropicLoop_result ct hct rest final
        (history ++ [⟨"user", .str q⟩]) [] hscript
      simpa [process_query_anthropic] using h

/-- C5 (witness): the amended claim at the concrete two-turn script of
`C5_counterexample`. -/
theorem C5_witness :
    String.join (deltaTexts (process_streaming_query ctOk "q" [] [textToolTurn, doneBTurn]).events) =
      String.join (allTextParts [textToolTurn, doneBTurn]) ∧
    (process_query_anthropic ctOk "q" [] [textToolTurn, doneBTurn]).result =
      .ok (String.intercalate "\n" (allTextParts [textToolTurn, doneBTurn])) :=
  C5_streaming_vs_blocking ctOk "q" [] [textToolTurn, doneBTurn]
    (fun n a => ⟨[.text "ok"], rfl⟩)
    (.cons ⟨rfl, by decide⟩ (.last ⟨by decide, by decide⟩))

/-- C6: in both streaming loops, every tool invocation is immediately
preceded by exactly one sentinel chunk of the exact form
`"\n[Tool: <name>]\n"` for its tool (and every sentinel is immediately
followed by its invocation), the sentinel chunks are exactly the invoked
names in that form and order, and a run whose turns have no tool calls
yields no sentinel at all. -/
theorem C6_tool_marker_chunks (ct : CallToolFn) (q : String)
    (history : List PyMessage) (script : List ModelTurn)
    (ghistory : List ChatMsg) (gscript : List (List GeminiPart)) :
    (EvsOk (process_streaming_query ct q history script).events ∧
     markerTexts (process_streaming_query ct q history script).events =
       (invokedNames (process_streaming_query ct q history script).events).map markerString ∧
     ((∀ t ∈ script, toolUsesOf t.content = []) →
       markerTexts (process_streaming_query ct q history script).events = [])) ∧
    (EvsOk (process_streaming_query_gemini ct q ghistory gscript).events ∧
     markerTexts (process_streaming_query_gemini ct q ghistory gscript).events =
       (invokedNames (process_streaming_query_gemini ct q ghistory gscript).events).map markerString ∧
     ((∀ p ∈ gscript, functionCallsOf p = []) →
       markerTexts (process_streaming_query_gemini ct q ghistory gscript).events = [])) := by
  constructor
  · cases script with
    | nil => exact ⟨.nil, rfl, fun _ => rfl⟩
    | cons final rest =>
      have hok : EvsOk (process_streaming_query ct q history (final :: rest)).events := by
        simpa [process_streaming_query] using
          evsOk_streamingLoop ct rest final (history ++ [⟨"user", .str q⟩])
      refine ⟨hok, evsOk_markers hok, ?_⟩
      intro hnone
      have h := streamingLoop_no_markers ct rest final (history ++ [⟨"user", .str q⟩])
        (hnone final (List.mem_cons_self final rest))
        (fun t ht => hnone t (List.mem_cons_of_mem final ht))
      simpa [process_streaming_query] using h
  · cases gscript with
    | nil => exact ⟨.nil, rfl, fun _ => rfl⟩
    | cons parts rest =>
      have hok : EvsOk (process_streaming_query_gemini ct q ghistory (parts :: rest)).events := by
        simpa [process_streaming_query_gemini] using
          evsOk_geminiLoop ct rest parts
            ((ghistory.map fun msg => GeminiContent.mk
              (if msg.role = "assistant" then "model" else "user") [.text msg.content])
              ++ [⟨"user", [.text q]⟩])
      refine ⟨hok, evsOk_markers hok, ?_⟩
      intro hnone
      have h := geminiLoop_no_markers ct rest parts
        ((ghistory.map fun msg => GeminiContent.mk
          (if msg.role = "assistant" then "model" else "user") [.text msg.content])
          ++ [⟨"user", [.text q]⟩])
        (hnone parts (List.mem_cons_self parts rest))
      simpa [process_streaming_query_gemini] using h

/-- C6 (witness): sentinel structure of two concrete runs, and the
no-sentinel guarantee for tool-free runs of both loops. -/
theorem C6_witness :
    EvsOk (process_streaming_query ctOk "q" [] [textToolTurn, doneBTurn]).events ∧
    markerTexts (process_streaming_query ctOk "q" [] [doneBTurn]).events = [] ∧
    markerTexts (process_streaming_query_gemini ctOk "q" [] [[.text "x"]]).events = [] := by
  have h1 := C6_tool_marker_chunks ctOk "q" [] [textToolTurn, doneBTurn] [] [[.text "x"]]
  have h2 := C6_tool_marker_chunks ctOk "q" [] [doneBTurn] [] [[.text "x"]]
  exact ⟨h1.1.1, h2.1.2.2 (by decide), h2.2.2.2 (by decide)⟩

/-- C7: the query loops never mutate the caller-held conversation-history
list in place — every heap object allocated before the call, the history
list and its element dicts included, is unchanged afterwards, because the
loops copy the list (`list(conversation_history)`) and only append to the
copy; and the session store hands out a fresh copy of the stored history
(`list(_SESSIONS.get(...))`), at a new address with the same contents,
leaving the store untouched. -/
theorem C7_history_not_mutated (ct : CallToolFn) (q : String) (h : Heap)
    (historyRef : Nat) (script : List ModelTurn)
    (sessionRefs : String → Option Nat) (sid : String) (sref : Nat)
    (hsref : sessionRefs sid = some sref) (hsr : sref < h.next) :
    (∀ r, r < h.next →
      ((heap_process_query_anthropic ct q h historyRef script).1).objs r = h.objs r) ∧
    (∀ r, r < h.next →
      ((heap_process_streaming_query ct q h historyRef script).1).objs r = h.objs r) ∧
    ((get_conversation_history h sessionRefs sid).2 ≠ sref ∧
     ((get_conversation_history h sessionRefs sid).1).listAt
        (get_conversation_history h sessionRefs sid).2 = h.listAt sref ∧
     (∀ r, r < h.next →
       ((get_conversation_history h sessionRefs sid).1).objs r = h.objs r)) := by
  refine ⟨?_, ?_, ?_, ?_, ?_⟩
  · intro r hr
    simp only [heap_process_query_anthropic, Heap.alloc]
    cases script with
    | nil =>
      rw [appendMsg_objs _ h.next _ r (by change r < h.next + 1; omega) (Nat.ne_of_lt hr)]
      simp [Nat.ne_of_lt hr]
    | cons response rest =>
      rw [heapQueryLoop_frame ct rest response _ h.next [] h.next
        (by rw [appendMsg_next]; change h.next ≤ h.next + 1 + 1; omega) r hr (Nat.ne_of_lt hr)]
      rw [appendMsg_objs _ h.next _ r (by change r < h.next + 1; omega) (Nat.ne_of_lt hr)]
      simp [Nat.ne_of_lt hr]
  · intro r hr
    simp only [heap_process_streaming_query, Heap.alloc]
    cases script with
    | nil =>
      rw [appendMsg_objs _ h.next _ r (by change r < h.next + 1; omega) (Nat.ne_of_lt hr)]
      simp [Nat.ne_of_lt hr]
    | cons final rest =>
      rw [heapStreamingLoop_frame ct rest final _ h.next h.next
        (by rw [appendMsg_next]; change h.next ≤ h.next + 1 + 1; omega) r hr (Nat.ne_of_lt hr)]
      rw [appendMsg_objs _ h.next _ r (by change r < h.next + 1; omega) (Nat.ne_of_lt hr)]
      simp [Nat.ne_of_lt hr]
  · simp only [get_conversation_history, Heap.alloc]
    exact Nat.ne_of_gt hsr
  · simp only [get_conversation_history, Heap.alloc, Heap.listAt, hsref]
    simp
  · intro r hr
    simp only [get_conversation_history, Heap.alloc]
    simp [Nat.ne_of_lt hr]

/-- C7 (witness): on a concrete heap whose history list at address 0 has
its single element dict at address 1, both objects are unchanged by a
query run, and the session store returns a fresh copy. -/
theorem C7_witness :
    (heap_process_query_anthropic ctOk "q" heap0 0 [doneTurn]).1.objs 0 = heap0.objs 0 ∧
    (heap_process_query_anthropic ctOk "q" heap0 0 [doneTurn]).1.objs 1 = heap0.objs 1 ∧
    (heap_process_streaming_query ctOk "q" heap0 0 [doneTurn]).1.objs 0 = heap0.objs 0 ∧
    (get_conversation_history heap0 sessionRefs0 "s").2 ≠ 0 ∧
    (get_conversation_history heap0 sessionRefs0 "s").1.listAt
      (get_conversation_history heap0 sessionRefs0 "s").2 = heap0.listAt 0 := by
  have h := C7_history_not_mutated ctOk "q" heap0 0 [doneTurn] sessionRefs0 "s" 0
    (by decide) (by decide)
  exact ⟨h.1 0 (by decide), h.1 1 (by decide), h.2.1 0 (by decide),
    h.2.2.1, h.2.2.2.1⟩

/-- C8: the core query loops enforce no turn-count limit — for every `n`
there is a provider response sequence, each turn reporting stop reason
`"tool_use"` with one tool call, under which both the non-streaming and
the streaming loop make more than `n` provider calls without
terminating of their own accord (the run ends only because the finite
script is exhausted; no turn-limit error exists in the code). -/
theorem C8_no_turn_limit : ∀ n : Nat, ∃ script : List ModelTurn,
    (∀ t ∈ script, t.stop_reason = "tool_use" ∧ toolUsesOf t.content ≠ []) ∧
    (process_query_anthropic ctNil "q" [] script).providerCalls.length > n ∧
    (process_streaming_query ctNil "q" [] script).providerCalls.length > n := by
  intro n
  refine ⟨List.replicate (n + 1) toolTurn, ?_, ?_, ?_⟩
  · intro t ht
    rw [List.eq_of_mem_replicate ht]
    exact ⟨rfl, by decide⟩
  · have hc := anthropicLoop_count n [⟨"user", .str "q"⟩] []
    simp only [List.replicate_succ, process_query_anthropic]
    simp only [List.nil_append]
    simp [hc]
    omega
  · have hc := streamingLoop_count n [⟨"user", .str "q"⟩]
    simp only [List.replicate_succ, process_streaming_query]
    simp only [List.nil_append]
    simp [hc]
    omega

/-- C9: after `update_conversation_history(..., clear=False)` the stored
history for the session has at most `2 * MAX_HISTORY_PAIRS` (ten)
entries, is a suffix of the previous history plus the appended
user/assistant pair (the most recent entries, original order), and ends
with that pair; `clear=True` removes the session's history entirely and
leaves every other session unchanged. -/
theorem C9_history_trimming (sessions : Sessions) (session_id : String)
    (q r : Option String) :
    2 * MAX_HISTORY_PAIRS = 10 ∧
    (∃ h', update_conversation_history sessions session_id q r false session_id = some h' ∧
       h'.length ≤ 2 * MAX_HISTORY_PAIRS ∧
       h'.IsSuffix ((sessions session_id).getD [] ++ [⟨"user", q⟩, ⟨"assistant", r⟩]) ∧
       List.IsSuffix [⟨"user", q⟩, ⟨"assistant", r⟩] h') ∧
    update_conversation_history sessions session_id q r true session_id = none ∧
    (∀ s, s ≠ session_id →
      update_conversation_history sessions session_id q r true s = sessions s) ∧
    (∀ s, s ≠ session_id →
      update_conversation_history sessions session_id q r false s = sessions s) := by
  refine ⟨by decide, ?_, ?_, ?_, ?_⟩
  · simp only [update_conversation_history, if_neg (Bool.false_ne_true), if_pos rfl]
    set old := (sessions session_id).getD [] with hold
    set pair : List HistEntry := [⟨"user", q⟩, ⟨"assistant", r⟩] with hpair
    have hM : MAX_HISTORY_PAIRS = 5 := rfl
    have hL : (old ++ pair).length = old.length + 2 := by simp [hpair]
    by_cases hlen : (old ++ pair).length > MAX_HISTORY_PAIRS * 2
    · refine ⟨(old ++ pair).drop ((old ++ pair).length - MAX_HISTORY_PAIRS * 2),
        by rw [if_pos hlen]; simp, ?_, ?_, ?_⟩
      · simp only [List.length_drop]
        omega
      · exact List.drop_suffix _ _
      · have hk : (old ++ pair).length - MAX_HISTORY_PAIRS * 2 ≤ old.length := by omega
        rw [List.drop_append_of_le_length hk]
        exact ⟨_, rfl⟩
    · exact ⟨old ++ pair, by rw [if_neg hlen]; simp, by omega, List.suffix_refl _, ⟨old, rfl⟩⟩
  · simp [update_conversation_history]
  · intro s hs
    simp [update_conversation_history, hs]
  · intro s hs
    simp [update_conversation_history, hs]

/-- C9 (witness): on a store whose session `"s"` already holds ten
entries, an update trims to the last ten, ending with the new pair;
clearing removes `"s"` and leaves `"t"` unchanged. -/
theorem C9_witness :
    (update_conversation_history sessions0 "s" (some "q") (some "r") true) "s" = none ∧
    (update_conversation_history sessions0 "s" (some "q") (some "r") true) "t" = sessions0 "t" ∧
    (update_conversation_history sessions0 "s" (some "q") (some "r") false) "s" =
      some (List.replicate 8 ⟨"user", some "x"⟩ ++
        [⟨"user", some "q"⟩, ⟨"assistant", some "r"⟩]) := by
  have h := C9_history_trimming sessions0 "s" (some "q") (some "r")
  exact ⟨h.2.2.1, h.2.2.2.1 "t" (by decide), by rfl⟩

/-- C10: with no valid stored preference (`PREFERRED_MODEL` absent or not
`"openai"`/`"anthropic"`), `check_model_key` returns `(False, "")` when
neither `ANTHROPIC_API_KEY` nor `OPENAI_API_KEY` is set — and it never
consults `GEMINI_API_KEY`, so a Gemini-only configuration is reported as
having no usable key; and it selects `"openai"` whenever
`OPENAI_API_KEY` is set (to a non-empty value, per Python truthiness),
even if `ANTHROPIC_API_KEY` is also set. -/
theorem C10_model_key_selection (env : Env)
    (hpref : env MODEL_PREFERENCE = none ∨
      (env MODEL_PREFERENCE ≠ some MODEL_NAME_OPENAI ∧
       env MODEL_PREFERENCE ≠ some MODEL_NAME_ANTHROPIC)) :
    (∀ v, check_model_key (fun k => if k = "GEMINI_API_KEY" then some v else env k) =
      check_model_key env) ∧
    (env key_of_anthropic_api_key = none → env key_of_openai_api_key = none →
      check_model_key env = (false, "")) ∧
    (env key_of_openai_api_key ≠ none → env key_of_openai_api_key ≠ some "" →
      check_model_key env = (true, MODEL_NAME_OPENAI)) := by
  have hcond : ¬((env MODEL_PREFERENCE).isSome ∧
      ((env MODEL_PREFERENCE).getD "") ∈
        ([ MODEL_NAME_OPENAI, MODEL_NAME_ANTHROPIC ] : List String)) := by
    rcases hpref with hp | ⟨h1, h2⟩
    · simp [hp]
    · cases hp : env MODEL_PREFERENCE with
      | none => simp
      | some v =>
        rw [hp] at h1 h2
        have hv1 : v ≠ MODEL_NAME_OPENAI := fun hx => h1 (by rw [hx])
        have hv2 : v ≠ MODEL_NAME_ANTHROPIC := fun hx => h2 (by rw [hx])
        simp [hv1, hv2]
  refine ⟨?_, ?_, ?_⟩
  · intro v
    simp only [check_model_key, key_of_anthropic_api_key, key_of_openai_api_key,
      MODEL_PREFERENCE]
    rw [if_neg (by decide : ¬("PREFERRED_MODEL" = "GEMINI_API_KEY")),
      if_neg (by decide : ¬("ANTHROPIC_API_KEY" = "GEMINI_API_KEY")),
      if_neg (by decide : ¬("OPENAI_API_KEY" = "GEMINI_API_KEY"))]
  · intro hA hO
    simp only [check_model_key]
    rw [if_neg hcond, if_pos ⟨hA, hO⟩]
  · intro hO hO'
    simp only [check_model_key]
    rw [if_neg hcond,
      if_neg (by rintro ⟨-, h⟩; exact hO h)]
    cases hOv : env key_of_openai_api_key with
    | none => exact absurd hOv hO
    | some s =>
      have hs : s ≠ "" := by
        intro h; apply hO'; rw [hOv, h]
      rw [if_pos (by simp [pyTruthy, hOv, hs])]

/-- C10 (witness): a Gemini-only environment yields `(False, "")`; an
environment with both keys and no preference yields
`(True, "openai")`. -/
theorem C10_witness :
    check_model_key envGeminiOnly = (false, "") ∧
    check_model_key envBothKeys = (true, MODEL_NAME_OPENAI) := by
  have h1 := C10_model_key_selection envGeminiOnly (Or.inl (by decide))
  have h2 := C10_model_key_selection envBothKeys (Or.inl (by decide))
  exact ⟨h1.2.1 (by decide) (by decide), h2.2.2 (by decide) (by decide)⟩

end LitmusMCP
